import Mathlib

/-!
Shallow embedding of `src/index.ts` of the `state` repository: an observable
value container (`State<T>`), subscriptions, DOM binding helpers
(`valueOf`, `valueForFocusable`, `eventListener`) and a URL-parameter
persistence helper (`persistStateToURLArgument`).

Modelling conventions:
* Callbacks are defunctionalized into the `Callback` inductive: a plain user
  callback with a numeric label (`user`), the focus-guarded wrapper built by
  `valueForFocusable` (`focusGuard`), and the URL-sync closure built by
  `persistStateToURLArgument` (`urlPersist`).  Invoking a user-level callback
  appends a `(label, value)` pair to an execution trace.
* The browser environment (`document.activeElement`, `window.location`,
  `window.history`) is an explicit `Dom` record; `URLSearchParams` is an
  ordered association list `List (String × String)`.
* The whole mutable world (DOM + one container + trace of user-callback
  invocations) is the `World` record; every source function becomes a pure
  function from `World` to `World`.
* `marshalString`/`unmarshalString` of `StringableState` are abstract
  function parameters `marshal`/`unmarshal`.
-/

namespace StateTs

/-- `history.replaceState` vs `history.pushState`; the source only ever issues
`replaceState`, but the model can express both so that "no new history entry"
is a real statement. -/
inductive HistoryOp where
  | replaceState (url : String)
  | pushState (url : String)
deriving DecidableEq, Repr

/-- Defunctionalized callbacks: the three callback shapes the source builds.
`user label` stands for an arbitrary caller-supplied `ValueCallback`,
identified by `label`; `focusGuard focusable label` is the
`preventingCallback` closure of `valueForFocusable`; `urlPersist name` is the
`callback` closure of `persistStateToURLArgument`. -/
inductive Callback (T : Type) where
  | user (label : Nat)
  | focusGuard (focusable : Nat) (label : Nat)
  | urlPersist (argumentName : String)
deriving DecidableEq, Repr

/-- The private fields of `class State<T>`: `#lastValue`, `#defaultValue` and
the `#listeners` object, the latter as an insertion-ordered association list
from subscription id to the subscription's callback. -/
structure StateData (T : Type) where
  lastValue : T
  defaultValue : T
  listeners : List (String × Callback T)
deriving DecidableEq, Repr

/-- `new State(defaultValue)`: both `#defaultValue` and `#lastValue` are set
to the constructor argument, no listeners. -/
def StateData.new (defaultValue : T) : StateData T :=
  { lastValue := defaultValue, defaultValue := defaultValue, listeners := [] }

/-- The browser pieces the source touches: `document.activeElement`
(elements are identified by `Nat`, `none` = no focused element),
`window.location.pathname`, the parsed `window.location.search`, and the log
of history operations performed. -/
structure Dom where
  activeElement : Option Nat
  pathname : String
  search : List (String × String)
  history : List HistoryOp
deriving DecidableEq, Repr

/-- The full mutable world: browser state, one `State` container, and the
trace of user-callback invocations `(label, value)` in order. -/
structure World (T : Type) where
  dom : Dom
  state : StateData T
  trace : List (Nat × T)
deriving DecidableEq, Repr

/-- `ValueSubscription<T>` minus the back-reference to the container (the
model has a single container in the `World`, so `dispose` acts on it
directly). -/
structure Sub (T : Type) where
  id : String
  cb : Callback T
deriving DecidableEq, Repr

/-! ### URLSearchParams model -/

/-- `URLSearchParams.get`: first value associated with the name, or `null`. -/
def getParam (params : List (String × String)) (name : String) : Option String :=
  (params.find? (fun p => p.1 = name)).map (fun p => p.2)

/-- `URLSearchParams.set`: replace the first matching entry in place, drop any
later duplicates; append at the end when the name is absent. -/
def setParam : List (String × String) → String → String → List (String × String)
  | [], name, v => [(name, v)]
  | (k, x) :: rest, name, v =>
    if k = name then (name, v) :: rest.filter (fun p => p.1 ≠ name)
    else (k, x) :: setParam rest name v

/-- `URLSearchParams.toString` (percent-encoding abstracted away). -/
def paramsToString (params : List (String × String)) : String :=
  String.intercalate "&" (params.map (fun p => p.1 ++ "=" ++ p.2))

/-- `setURLArgument` (src/index.ts lines 163-171): set the parameter, build
`pathname + "?" + params.toString()` and `history.replaceState` to it. -/
def setURLArgument (dom : Dom) (params : List (String × String))
    (argumentName value : String) : Dom :=
  let params2 := setParam params argumentName value
  let newURL := dom.pathname ++ "?" ++ paramsToString params2
  { dom with search := params2,
             history := dom.history ++ [HistoryOp.replaceState newURL] }

/-- `compareAndSetURLArgument` (lines 152-161): write only on difference. -/
def compareAndSetURLArgument (dom : Dom) (params : List (String × String))
    (argumentName paramValue stringValue : String) : Dom :=
  if paramValue ≠ stringValue then setURLArgument dom params argumentName stringValue
  else dom

/-! ### Callback execution -/

/-- Running one callback with a value against the world.
* `user label` appends `(label, value)` to the trace.
* `focusGuard` (the `preventingCallback` of `valueForFocusable`, lines 80-84)
  forwards to the user callback only when `document.activeElement !=
  focusable`, re-checked at every invocation.
* `urlPersist` (the `callback` of `persistStateToURLArgument`, lines
  127-146) re-reads the live URL parameters; if the parameter is present it
  compare-and-sets it against `marshal value`; if absent it writes
  `marshal (state.valueOf())` only when `state.valueOf() !== state.defaultValue`. -/
def runCallback [DecidableEq T] (marshal : T → String) :
    Callback T → T → World T → World T
  | .user label, v, w => { w with trace := w.trace ++ [(label, v)] }
  | .focusGuard focusable label, v, w =>
    if w.dom.activeElement ≠ some focusable then
      { w with trace := w.trace ++ [(label, v)] }
    else w
  | .urlPersist argumentName, v, w =>
    let params := w.dom.search
    match getParam params argumentName with
    | some param =>
      { w with dom := compareAndSetURLArgument w.dom params argumentName param (marshal v) }
    | none =>
      if w.state.lastValue ≠ w.state.defaultValue then
        { w with dom := setURLArgument w.dom params argumentName (marshal w.state.lastValue) }
      else w

/-! ### State methods -/

/-- `this.#listeners[id] = subscription`: JS object assignment — an existing
key keeps its position and gets the new value, a fresh key is appended. -/
def addListenerRaw (listeners : List (String × Callback T)) (idv : String)
    (cb : Callback T) : List (String × Callback T) :=
  if listeners.any (fun p => p.1 = idv) then
    listeners.map (fun p => if p.1 = idv then (idv, cb) else p)
  else listeners ++ [(idv, cb)]

/-- `State.addListener` (lines 11-14): register under the subscription's id,
then immediately invoke its callback with `#lastValue`. -/
def addListener [DecidableEq T] (marshal : T → String) (sub : Sub T)
    (w : World T) : World T :=
  let w1 := { w with state :=
    { w.state with listeners := addListenerRaw w.state.listeners sub.id sub.cb } }
  runCallback marshal sub.cb w1.state.lastValue w1

/-- `State.removeListener` (lines 16-18): `delete this.#listeners[sub.id]`. -/
def removeListener (sub : Sub T) (w : World T) : World T :=
  { w with state :=
    { w.state with listeners := w.state.listeners.filter (fun p => p.1 ≠ sub.id) } }

/-- `ValueSubscription.dispose` (lines 60-62): remove itself from its
container. -/
def Sub.dispose (sub : Sub T) (w : World T) : World T :=
  removeListener sub w

/-- Invoke the callbacks of a listener snapshot, left to right. -/
def notifyAll [DecidableEq T] (marshal : T → String)
    (ls : List (String × Callback T)) (v : T) (w : World T) : World T :=
  ls.foldl (fun acc p => runCallback marshal p.2 v acc) w

/-- `State.setValue` (lines 20-25): store the value as `#lastValue`, then
invoke every registered listener's callback with it, in mapping order.  No
equality or deduplication check appears anywhere. -/
def setValue [DecidableEq T] (marshal : T → String) (v : T) (w : World T) : World T :=
  let w1 := { w with state := { w.state with lastValue := v } }
  notifyAll marshal w1.state.listeners v w1

/-- `State.valueOf` (lines 27-29). -/
def valueOfMethod (w : World T) : T :=
  w.state.lastValue

/-- `State.dispose` (lines 35-39): iterate the listener mapping and
`removeListener` each entry. -/
def disposeState (w : World T) : World T :=
  w.state.listeners.foldl (fun acc p => removeListener { id := p.1, cb := p.2 } acc) w

/-- Fold a sequence of `setValue` calls over a world. -/
def runSetValues [DecidableEq T] (marshal : T → String) (vs : List T)
    (w : World T) : World T :=
  vs.foldl (fun acc v => setValue marshal v acc) w

/-! ### Binding helpers -/

/-- The free `valueOf` function (lines 65-73): create a subscription with a
fresh id, `addListener` it (which triggers one eager callback invocation),
then invoke the callback once more with `state.valueOf()`, and return the
subscription handle. -/
def valueOfFn [DecidableEq T] (marshal : T → String) (idv : String)
    (label : Nat) (w : World T) : Sub T × World T :=
  let sub : Sub T := { id := idv, cb := Callback.user label }
  let w1 := addListener marshal sub w
  let w2 := { w1 with trace := w1.trace ++ [(label, w1.state.lastValue)] }
  (sub, w2)

/-- `valueForFocusable` (lines 75-91): build the focus-guarded callback; call
the raw callback with `state.valueOf()` when the element is not focused; then
`addListener` the guarded callback (triggering its eager invocation, which
re-checks focus); return the handle. -/
def valueForFocusable [DecidableEq T] (marshal : T → String) (idv : String)
    (focusable : Nat) (label : Nat) (w : World T) : Sub T × World T :=
  let sub : Sub T := { id := idv, cb := Callback.focusGuard focusable label }
  let w1 :=
    if w.dom.activeElement ≠ some focusable then
      { w with trace := w.trace ++ [(label, w.state.lastValue)] }
    else w
  let w2 := addListener marshal sub w1
  (sub, w2)

/-- A DOM event as the handler sees it: the target's dynamic properties and
the `defaultPrevented` flag. -/
structure Ev (T : Type) where
  props : String → T
  defaultPrevented : Bool

/-- Firing the handler produced by `eventListener` (lines 93-110): read
`event.target[property]`; with a rejecting validator, `preventDefault`, write
`state.valueOf()` back into the target property and return; otherwise
`setValue` the read value. -/
def eventListenerRun [DecidableEq T] (marshal : T → String)
    (validator : Option (T → Bool)) (property : String)
    (ev : Ev T) (w : World T) : Ev T × World T :=
  let newValue := ev.props property
  match validator with
  | some validate =>
    if validate newValue then (ev, setValue marshal newValue w)
    else
      ({ ev with defaultPrevented := true,
                 props := fun p => if p = property then w.state.lastValue else ev.props p },
       w)
  | none => (ev, setValue marshal newValue w)

/-- `persistStateToURLArgument` (lines 114-150): read the parameter from the
current URL; when present and different from `marshal defaultValue`, apply
`setValue (unmarshal param)` immediately; then register the `urlPersist`
callback as a subscription (whose eager invocation runs the sync logic once)
and return the handle. -/
def persistStateToURLArgument [DecidableEq T] (marshal : T → String)
    (unmarshal : String → T) (idv : String) (argumentName : String)
    (w : World T) : Sub T × World T :=
  let params := w.dom.search
  let w1 :=
    match getParam params argumentName with
    | some param =>
      if param ≠ marshal w.state.defaultValue then
        setValue marshal (unmarshal param) w
      else w
    | none => w
  let sub : Sub T := { id := idv, cb := Callback.urlPersist argumentName }
  let w2 := addListener marshal sub w1
  (sub, w2)

/-- `this.#listeners[k]`: object indexing. -/
def objGet (listeners : List (String × Callback T)) (k : String) : Option (Callback T) :=
  (listeners.find? (fun p => p.1 = k)).map (fun p => p.2)

/-- Whether invoking this callback can append a trace entry with this label. -/
def emitsLabel : Callback T → Nat → Bool
  | .user l, L => l == L
  | .focusGuard _ l, L => l == L
  | .urlPersist _, _ => false

/-- Whether this callback touches the DOM (URL / history) when invoked. -/
def touchesDom : Callback T → Bool
  | .urlPersist _ => true
  | _ => false

/-! ### Basic preservation lemmas -/

theorem runCallback_state [DecidableEq T] (marshal : T → String) (cb : Callback T)
    (v : T) (w : World T) : (runCallback marshal cb v w).state = w.state := by
  cases cb with
  | user l => rfl
  | focusGuard f l =>
    simp only [runCallback]
    split <;> rfl
  | urlPersist n =>
    simp only [runCallback]
    split
    · rfl
    · split <;> rfl

theorem runCallback_dom [DecidableEq T] (marshal : T → String) (cb : Callback T)
    (v : T) (w : World T) (h : touchesDom cb = false) :
    (runCallback marshal cb v w).dom = w.dom := by
  cases cb with
  | user l => rfl
  | focusGuard f l =>
    simp only [runCallback]
    split <;> rfl
  | urlPersist n => simp [touchesDom] at h

theorem runCallback_trace_mem [DecidableEq T] (marshal : T → String) (cb : Callback T)
    (v : T) (w : World T) :
    ∀ e ∈ (runCallback marshal cb v w).trace, e ∈ w.trace ∨ emitsLabel cb e.1 = true := by
  intro e he
  cases cb with
  | user l =>
    simp only [runCallback, List.mem_append, List.mem_singleton] at he
    rcases he with h | h
    · exact Or.inl h
    · subst h; exact Or.inr (by simp [emitsLabel])
  | focusGuard f l =>
    simp only [runCallback] at he
    split at he
    · simp only [List.mem_append, List.mem_singleton] at he
      rcases he with h | h
      · exact Or.inl h
      · subst h; exact Or.inr (by simp [emitsLabel])
    · exact Or.inl he
  | urlPersist n =>
    simp only [runCallback] at he
    cases hg : getParam w.dom.search n <;> simp only [hg] at he
    · split at he <;> exact Or.inl he
    · exact Or.inl he

theorem notifyAll_state [DecidableEq T] (marshal : T → String)
    (ls : List (String × Callback T)) (v : T) (w : World T) :
    (notifyAll marshal ls v w).state = w.state := by
  induction ls generalizing w with
  | nil => rfl
  | cons p rest ih =>
    simp only [notifyAll, List.foldl_cons] at *
    rw [ih]
    exact runCallback_state marshal p.2 v w

theorem notifyAll_dom [DecidableEq T] (marshal : T → String)
    (ls : List (String × Callback T)) (v : T) (w : World T)
    (h : ∀ p ∈ ls, touchesDom p.2 = false) :
    (notifyAll marshal ls v w).dom = w.dom := by
  induction ls generalizing w with
  | nil => rfl
  | cons p rest ih =>
    simp only [notifyAll, List.foldl_cons] at *
    rw [ih _ (fun q hq => h q (List.mem_cons_of_mem p hq))]
    exact runCallback_dom marshal p.2 v w (h p (List.mem_cons_self p rest))

theorem notifyAll_trace_mem [DecidableEq T] (marshal : T → String)
    (ls : List (String × Callback T)) (v : T) (w : World T) :
    ∀ e ∈ (notifyAll marshal ls v w).trace,
      e ∈ w.trace ∨ ∃ p ∈ ls, emitsLabel p.2 e.1 = true := by
  induction ls generalizing w with
  | nil => intro e he; exact Or.inl he
  | cons p rest ih =>
    intro e he
    simp only [notifyAll, List.foldl_cons] at he
    rcases ih (runCallback marshal p.2 v w) e he with h | ⟨q, hq, hqe⟩
    · rcases runCallback_trace_mem marshal p.2 v w e h with h2 | h2
      · exact Or.inl h2
      · exact Or.inr ⟨p, by simp, h2⟩
    · exact Or.inr ⟨q, by simp [hq], hqe⟩

theorem setValue_state [DecidableEq T] (marshal : T → String) (v : T) (w : World T) :
    (setValue marshal v w).state = { w.state with lastValue := v } := by
  simp only [setValue]
  exact notifyAll_state marshal _ v _

theorem setValue_listeners [DecidableEq T] (marshal : T → String) (v : T) (w : World T) :
    (setValue marshal v w).state.listeners = w.state.listeners := by
  rw [setValue_state]

theorem setValue_lastValue [DecidableEq T] (marshal : T → String) (v : T) (w : World T) :
    (setValue marshal v w).state.lastValue = v := by
  rw [setValue_state]

theorem setValue_dom [DecidableEq T] (marshal : T → String) (v : T) (w : World T)
    (h : ∀ p ∈ w.state.listeners, touchesDom p.2 = false) :
    (setValue marshal v w).dom = w.dom := by
  simp only [setValue]
  exact notifyAll_dom marshal _ v _ h

theorem setValue_trace_mem [DecidableEq T] (marshal : T → String) (v : T) (w : World T) :
    ∀ e ∈ (setValue marshal v w).trace,
      e ∈ w.trace ∨ ∃ p ∈ w.state.listeners, emitsLabel p.2 e.1 = true := by
  simp only [setValue]
  exact notifyAll_trace_mem marshal _ v _

theorem runSetValues_no_emit [DecidableEq T] (marshal : T → String) (L : Nat)
    (vs : List T) (w : World T)
    (h : ∀ p ∈ w.state.listeners, emitsLabel p.2 L = false) :
    ∀ e ∈ (runSetValues marshal vs w).trace, e.1 = L → e ∈ w.trace := by
  induction vs generalizing w with
  | nil => intro e he _; exact he
  | cons v rest ih =>
    intro e he heL
    have hls : (setValue marshal v w).state.listeners = w.state.listeners :=
      setValue_listeners marshal v w
    have step := ih (setValue marshal v w) (by rw [hls]; exact h) e he heL
    rcases setValue_trace_mem marshal v w e step with h2 | ⟨p, hp, hpe⟩
    · exact h2
    · rw [heL] at hpe
      rw [h p hp] at hpe
      exact absurd hpe (by simp)

theorem runSetValues_lastValue [DecidableEq T] (marshal : T → String)
    (vs : List T) (w : World T) :
    (runSetValues marshal vs w).state.lastValue = vs.getLast?.getD w.state.lastValue := by
  induction vs generalizing w with
  | nil => rfl
  | cons v rest ih =>
    have step : runSetValues marshal (v :: rest) w
        = runSetValues marshal rest (setValue marshal v w) := rfl
    rw [step, ih]
    rw [setValue_lastValue]
    cases rest with
    | nil => rfl
    | cons b bs =>
      rw [List.getLast?_cons_cons]
      obtain ⟨x, hx⟩ := Option.isSome_iff_exists.mp
        (List.getLast?_isSome.mpr (List.cons_ne_nil b bs))
      rw [hx]
      rfl

/-- C1: for every State container and every sequence of `setValue` calls,
`valueOf()` after the sequence returns the last value passed to `setValue`,
and for the empty sequence it returns the value the container holds — which,
for a freshly constructed container, is the `defaultValue` given at
construction. -/
theorem setValue_sequence_last [DecidableEq T] (marshal : T → String) :
    (∀ (w : World T) (vs : List T),
      valueOfMethod (runSetValues marshal vs w) = vs.getLast?.getD (valueOfMethod w))
    ∧ ∀ (d : T) (dom : Dom),
        valueOfMethod { dom := dom, state := StateData.new d, trace := ([] : List (Nat × T)) } = d := by
  constructor
  · intro w vs
    exact runSetValues_lastValue marshal vs w
  · intro d dom
    rfl

/-- A concrete world for the C2 scenario: no focused element, fresh `Nat`
container with default `0`, empty trace. -/
def wDemoFoc : World Nat :=
  { dom := { activeElement := none, pathname := "", search := [], history := [] },
    state := StateData.new 0, trace := [] }

/-- C2: counterexample — with no element focused, `valueForFocusable` invokes
the caller's callback TWICE at registration (once directly, once through the
guarded callback's eager `addListener` delivery, which re-checks focus and
passes), not exactly once as claimed: the trace gains two `(7, 0)` entries. -/
theorem valueForFocusable_one_invocation_cex :
    wDemoFoc.dom.activeElement ≠ some 5
    ∧ wDemoFoc.trace = []
    ∧ (valueForFocusable (fun _ => "") "ab" 5 7 wDemoFoc).2.trace = [(7, 0), (7, 0)] := by
  refine ⟨by decide, rfl, rfl⟩

/-- C2 (amended): when the element is not focused at registration time,
`valueForFocusable` delivers exactly TWO invocations of the caller's callback
(one direct call with `state.valueOf()`, one through the guarded callback's
eager delivery inside `addListener`), each with the container's current
value, registers the guarded callback, and returns the subscription handle. -/
theorem valueForFocusable_two_initial_invocations [DecidableEq T]
    (marshal : T → String) (idv : String) (focusable : Nat) (label : Nat)
    (w : World T) (h : w.dom.activeElement ≠ some focusable) :
    ((valueForFocusable marshal idv focusable label w).2.trace
      = w.trace ++ [(label, w.state.lastValue), (label, w.state.lastValue)])
    ∧ (valueForFocusable marshal idv focusable label w).1
      = { id := idv, cb := Callback.focusGuard focusable label }
    ∧ (valueForFocusable marshal idv focusable label w).2.state.listeners
      = addListenerRaw w.state.listeners idv (Callback.focusGuard focusable label)
    ∧ (valueForFocusable marshal idv focusable label w).2.state.lastValue
      = w.state.lastValue := by
  simp [valueForFocusable, addListener, runCallback, h]

/-- Closed witness for the amended C2 theorem at a concrete input. -/
theorem valueForFocusable_two_initial_invocations_witness :
    wDemoFoc.dom.activeElement ≠ some 5
    ∧ (valueForFocusable (fun _ => "") "ab" 5 7 wDemoFoc).2.trace
      = wDemoFoc.trace ++ [(7, wDemoFoc.state.lastValue), (7, wDemoFoc.state.lastValue)] :=
  ⟨by decide,
   (valueForFocusable_two_initial_invocations (fun _ => "") "ab" 5 7 wDemoFoc (by decide)).1⟩

/-- C3: the free `valueOf` binding helper invokes the callback exactly twice
at registration (once via `addListener`'s eager delivery, once via the
explicit call after registration), each time with the container's current
value, registers it, and returns the subscription handle. -/
theorem valueOf_two_initial_invocations [DecidableEq T] (marshal : T → String)
    (idv : String) (label : Nat) (w : World T) :
    ((valueOfFn marshal idv label w).2.trace
      = w.trace ++ [(label, w.state.lastValue), (label, w.state.lastValue)])
    ∧ (valueOfFn marshal idv label w).1 = { id := idv, cb := Callback.user label }
    ∧ (valueOfFn marshal idv label w).2.state.listeners
      = addListenerRaw w.state.listeners idv (Callback.user label)
    ∧ (valueOfFn marshal idv label w).2.state.lastValue = w.state.lastValue := by
  simp [valueOfFn, addListener, runCallback]

/-- The user-callback label carried by a callback (0 for the URL-sync
callback, which never emits a trace entry). -/
def labelOf : Callback T → Nat
  | .user l => l
  | .focusGuard _ l => l
  | .urlPersist _ => 0

/-- C4: after removing a subscription (directly via `removeListener` or via
the subscription's `dispose`, which is the same operation), its id is gone
from the mapping, a second removal is a no-op (double dispose is safe),
removing an unregistered subscription changes nothing and raises no error
(the model is a total function), and no subsequent sequence of `setValue`
calls ever invokes the removed subscription's callback again — any trace
entry carrying its label was already present before. -/
theorem removed_subscription_never_notified [DecidableEq T] (marshal : T → String)
    (w : World T) (sub : Sub T) (L : Nat)
    (hOthers : ∀ p ∈ w.state.listeners, p.1 ≠ sub.id → emitsLabel p.2 L = false) :
    (¬ sub.id ∈ (Sub.dispose sub w).state.listeners.map Prod.fst)
    ∧ Sub.dispose sub (Sub.dispose sub w) = Sub.dispose sub w
    ∧ ((¬ sub.id ∈ w.state.listeners.map Prod.fst) → Sub.dispose sub w = w)
    ∧ ∀ (vs : List T), ∀ e ∈ (runSetValues marshal vs (Sub.dispose sub w)).trace,
        e.1 = L → e ∈ w.trace := by
  refine ⟨?_, ?_, ?_, ?_⟩
  · intro hmem
    simp only [Sub.dispose, removeListener, List.mem_map] at hmem
    obtain ⟨p, hp, hid⟩ := hmem
    have hne := List.of_mem_filter hp
    simp only [decide_eq_true_eq] at hne
    exact hne hid
  · simp only [Sub.dispose, removeListener]
    have hfil : (w.state.listeners.filter (fun p => p.1 ≠ sub.id)).filter
        (fun p => p.1 ≠ sub.id) = w.state.listeners.filter (fun p => p.1 ≠ sub.id) := by
      apply List.filter_eq_self.mpr
      intro a ha
      exact (List.mem_filter.mp ha).2
    rw [hfil]
  · intro hno
    simp only [Sub.dispose, removeListener]
    have hfil : w.state.listeners.filter (fun p => p.1 ≠ sub.id) = w.state.listeners :=
      List.filter_eq_self.mpr (fun a ha => by
        simp only [decide_eq_true_eq]
        intro heq
        exact hno (List.mem_map.mpr ⟨a, ha, heq⟩))
    rw [hfil]
  · intro vs e he heL
    have hno : ∀ p ∈ (Sub.dispose sub w).state.listeners, emitsLabel p.2 L = false := by
      intro p hp
      simp only [Sub.dispose, removeListener] at hp
      have h1 := List.of_mem_filter hp
      simp only [decide_eq_true_eq] at h1
      exact hOthers p (List.mem_of_mem_filter hp) h1
    exact runSetValues_no_emit marshal L vs (Sub.dispose sub w) hno e he heL

/-- A concrete world for the C4 witness: two user subscriptions. -/
def wDemoRem : World Nat :=
  { dom := { activeElement := none, pathname := "", search := [], history := [] },
    state := { lastValue := 0, defaultValue := 0,
               listeners := [("a", Callback.user 1), ("b", Callback.user 2)] },
    trace := [] }

/-- Closed witness for C4 at a concrete input. -/
theorem removed_subscription_never_notified_witness :
    (¬ "a" ∈ (Sub.dispose ⟨"a", Callback.user 1⟩ wDemoRem).state.listeners.map Prod.fst)
    ∧ Sub.dispose ⟨"a", Callback.user 1⟩ (Sub.dispose ⟨"a", Callback.user 1⟩ wDemoRem)
      = Sub.dispose ⟨"a", Callback.user 1⟩ wDemoRem :=
  ⟨(removed_subscription_never_notified (fun n => toString n) wDemoRem
      ⟨"a", Callback.user 1⟩ 1 (by decide)).1,
   (removed_subscription_never_notified (fun n => toString n) wDemoRem
      ⟨"a", Callback.user 1⟩ 1 (by decide)).2.1⟩

theorem foldl_removeListener_fields (ks : List (String × Callback T)) (w : World T) :
    ((ks.foldl (fun acc p => removeListener { id := p.1, cb := p.2 } acc) w).dom = w.dom)
    ∧ ((ks.foldl (fun acc p => removeListener { id := p.1, cb := p.2 } acc) w).trace = w.trace)
    ∧ ((ks.foldl (fun acc p => removeListener { id := p.1, cb := p.2 } acc) w).state.lastValue
        = w.state.lastValue)
    ∧ ((ks.foldl (fun acc p => removeListener { id := p.1, cb := p.2 } acc) w).state.defaultValue
        = w.state.defaultValue) := by
  induction ks generalizing w with
  | nil => exact ⟨rfl, rfl, rfl, rfl⟩
  | cons hd tl ih =>
    simp only [List.foldl_cons]
    exact ih (removeListener { id := hd.1, cb := hd.2 } w)

theorem foldl_removeListener_mem (ks : List (String × Callback T)) (w : World T) :
    ∀ q ∈ (ks.foldl (fun acc p => removeListener { id := p.1, cb := p.2 } acc) w).state.listeners,
      q ∈ w.state.listeners ∧ ∀ p ∈ ks, q.1 ≠ p.1 := by
  induction ks generalizing w with
  | nil => intro q hq; exact ⟨hq, by simp⟩
  | cons hd tl ih =>
    intro q hq
    simp only [List.foldl_cons] at hq
    obtain ⟨hmem, htl⟩ := ih (removeListener { id := hd.1, cb := hd.2 } w) q hq
    simp only [removeListener] at hmem
    have h1 := List.of_mem_filter hmem
    simp only [decide_eq_true_eq] at h1
    refine ⟨List.mem_of_mem_filter hmem, ?_⟩
    intro p hp
    rcases List.mem_cons.mp hp with h | h
    · rw [h]; exact h1
    · exact htl p h

theorem disposeState_dom (w : World T) : (disposeState w).dom = w.dom :=
  (foldl_removeListener_fields w.state.listeners w).1

theorem disposeState_trace (w : World T) : (disposeState w).trace = w.trace :=
  (foldl_removeListener_fields w.state.listeners w).2.1

theorem disposeState_lastValue (w : World T) :
    (disposeState w).state.lastValue = w.state.lastValue :=
  (foldl_removeListener_fields w.state.listeners w).2.2.1

theorem disposeState_defaultValue (w : World T) :
    (disposeState w).state.defaultValue = w.state.defaultValue :=
  (foldl_removeListener_fields w.state.listeners w).2.2.2

theorem disposeState_listeners_nil (w : World T) :
    (disposeState w).state.listeners = [] := by
  rw [List.eq_nil_iff_forall_not_mem]
  intro q hq
  obtain ⟨hmem, hkeys⟩ := foldl_removeListener_mem w.state.listeners w q hq
  exact hkeys q hmem rfl

theorem setValue_nil_listeners [DecidableEq T] (marshal : T → String) (v : T)
    (w : World T) (h : w.state.listeners = []) :
    setValue marshal v w = { w with state := { w.state with lastValue := v } } := by
  simp only [setValue, notifyAll]
  rw [h]
  rfl

theorem runSetValues_nil_listeners [DecidableEq T] (marshal : T → String)
    (vs : List T) (w : World T) (h : w.state.listeners = []) :
    runSetValues marshal vs w
      = { w with state := { w.state with lastValue := vs.getLast?.getD w.state.lastValue } } := by
  induction vs generalizing w with
  | nil => rfl
  | cons v rest ih =>
    have step : runSetValues marshal (v :: rest) w
        = runSetValues marshal rest (setValue marshal v w) := rfl
    rw [step, setValue_nil_listeners marshal v w h]
    rw [ih _ (show ({ w with state := { w.state with lastValue := v } } : World T).state.listeners
          = [] from h)]
    cases rest with
    | nil => rfl
    | cons b bs =>
      rw [List.getLast?_cons_cons]
      obtain ⟨x, hx⟩ := Option.isSome_iff_exists.mp
        (List.getLast?_isSome.mpr (List.cons_ne_nil b bs))
      rw [hx]
      rfl

/-- C5: after the container's `dispose()` the listener mapping is empty, the
current and default values and the rest of the world are unchanged, and any
subsequent sequence of `setValue` calls only updates `#lastValue` — no
callback runs (trace and DOM untouched) and the container stays usable. -/
theorem dispose_empties_listeners [DecidableEq T] (marshal : T → String)
    (w : World T) (vs : List T) :
    (disposeState w).state.listeners = []
    ∧ (disposeState w).state.lastValue = w.state.lastValue
    ∧ (disposeState w).state.defaultValue = w.state.defaultValue
    ∧ (disposeState w).dom = w.dom
    ∧ (disposeState w).trace = w.trace
    ∧ runSetValues marshal vs (disposeState w)
      = { disposeState w with state := { (disposeState w).state with
            lastValue := vs.getLast?.getD w.state.lastValue } } := by
  have hnil := disposeState_listeners_nil (w := w)
  refine ⟨hnil, disposeState_lastValue w, disposeState_defaultValue w,
    disposeState_dom w, disposeState_trace w, ?_⟩
  rw [runSetValues_nil_listeners marshal vs (disposeState w) hnil]
  rw [disposeState_lastValue]

theorem notifyAll_user_trace [DecidableEq T] (marshal : T → String)
    (ls : List (String × Callback T)) (v : T) (w : World T)
    (h : ∀ p ∈ ls, ∃ L, p.2 = Callback.user L) :
    (notifyAll marshal ls v w).trace = w.trace ++ ls.map (fun p => (labelOf p.2, v)) := by
  induction ls generalizing w with
  | nil => simp [notifyAll]
  | cons p rest ih =>
    obtain ⟨L, hL⟩ := h p (List.mem_cons_self p rest)
    simp only [notifyAll, List.foldl_cons] at *
    rw [ih _ (fun q hq => h q (List.mem_cons_of_mem p hq))]
    simp [runCallback, labelOf, hL]

/-- C6: `setValue` performs no equality or deduplication check: even a value
equal to the current one is stored and the callback of every registered
subscription is invoked exactly once, in mapping order, with that value
(stated for mappings of plain user callbacks so that every invocation is a
trace entry); the general clause quantifies over all values, with no
hypothesis relating the new value to the current one. -/
theorem setValue_no_dedup [DecidableEq T] (marshal : T → String) (w : World T)
    (hUser : ∀ p ∈ w.state.listeners, ∃ L, p.2 = Callback.user L) :
    ((setValue marshal w.state.lastValue w).trace
      = w.trace ++ w.state.listeners.map (fun p => (labelOf p.2, w.state.lastValue)))
    ∧ (∀ v, (setValue marshal v w).trace
        = w.trace ++ w.state.listeners.map (fun p => (labelOf p.2, v)))
    ∧ ∀ v, (setValue marshal v w).state.lastValue = v := by
  have hgen : ∀ v, (setValue marshal v w).trace
      = w.trace ++ w.state.listeners.map (fun p => (labelOf p.2, v)) := by
    intro v
    simp only [setValue]
    exact notifyAll_user_trace marshal _ v _ hUser
  exact ⟨hgen w.state.lastValue, hgen, fun v => setValue_lastValue marshal v w⟩

/-- A concrete world for the C6 witness: one user subscription, value 3. -/
def wDemoDedup : World Nat :=
  { dom := { activeElement := none, pathname := "", search := [], history := [] },
    state := { lastValue := 3, defaultValue := 0,
               listeners := [("a", Callback.user 1)] },
    trace := [] }

/-- Closed witness for C6: re-setting the current value 3 still produces one
notification per listener, with value 3. -/
theorem setValue_no_dedup_witness :
    (setValue (fun n => toString n) wDemoDedup.state.lastValue wDemoDedup).trace
      = wDemoDedup.trace
        ++ wDemoDedup.state.listeners.map (fun p => (labelOf p.2, wDemoDedup.state.lastValue)) :=
  (setValue_no_dedup (fun n => toString n) wDemoDedup
    (by intro p hp; simp only [wDemoDedup, List.mem_singleton] at hp; exact ⟨1, by rw [hp]⟩)).1

/-- C7: an `eventListener` handler with a validator: on rejection of the
value read from the target property it suppresses the default DOM action,
resets that target property to the container's current value (other
properties untouched) and leaves the whole world — in particular the
container's value — unchanged (`setValue` is not called); on acceptance, or
with no validator supplied, it calls `setValue` with the read value and
leaves the event alone. -/
theorem eventListener_validator_behavior [DecidableEq T] (marshal : T → String)
    (validate : T → Bool) (property : String) (ev : Ev T) (w : World T) :
    (validate (ev.props property) = false →
       ((eventListenerRun marshal (some validate) property ev w).2 = w
        ∧ (eventListenerRun marshal (some validate) property ev w).1.defaultPrevented = true
        ∧ (eventListenerRun marshal (some validate) property ev w).1.props property
            = w.state.lastValue
        ∧ ∀ q, q ≠ property →
            (eventListenerRun marshal (some validate) property ev w).1.props q = ev.props q))
    ∧ (validate (ev.props property) = true →
        eventListenerRun marshal (some validate) property ev w
          = (ev, setValue marshal (ev.props property) w))
    ∧ eventListenerRun marshal none property ev w
        = (ev, setValue marshal (ev.props property) w) := by
  refine ⟨?_, ?_, rfl⟩
  · intro hrej
    simp only [eventListenerRun, hrej]
    refine ⟨rfl, rfl, by simp, ?_⟩
    intro q hq
    simp [hq]
  · intro hacc
    simp only [eventListenerRun, hacc]
    rfl

/-- A concrete scenario for the C7 witness: validator rejects negative
values, the target's `value` property reads `-1`, container currently `5`. -/
def wDemoEvt : World Int :=
  { dom := { activeElement := none, pathname := "", search := [], history := [] },
    state := { lastValue := 5, defaultValue := 0, listeners := [] },
    trace := [] }

/-- The concrete event for the C7 witness. -/
def evDemo : Ev Int :=
  { props := fun p => if p = "value" then (-1 : Int) else 0,
    defaultPrevented := false }

/-- Closed witness for C7: the rejected value `-1` prevents the default,
resets the target property to `5` and leaves the world unchanged. -/
theorem eventListener_validator_behavior_witness :
    ((eventListenerRun (fun _ => "") (some (fun v => decide (0 ≤ v))) "value" evDemo wDemoEvt).2
        = wDemoEvt)
    ∧ (eventListenerRun (fun _ => "") (some (fun v => decide (0 ≤ v))) "value" evDemo
        wDemoEvt).1.defaultPrevented = true
    ∧ (eventListenerRun (fun _ => "") (some (fun v => decide (0 ≤ v))) "value" evDemo
        wDemoEvt).1.props "value" = wDemoEvt.state.lastValue :=
  let h := (eventListener_validator_behavior (fun _ => "") (fun v => decide (0 ≤ v))
    "value" evDemo wDemoEvt).1 (by decide)
  ⟨h.1, h.2.1, h.2.2.1⟩

theorem getParam_setParam (params : List (String × String)) (name v : String) :
    getParam (setParam params name v) name = some v := by
  induction params with
  | nil => simp [getParam, setParam]
  | cons hd tl ih =>
    obtain ⟨k, x⟩ := hd
    by_cases h : k = name
    · simp [setParam, getParam, h]
    · simp only [setParam, if_neg h]
      simp only [getParam, List.find?_cons, decide_eq_true_eq] at *
      rw [decide_eq_false h]
      exact ih

theorem runCallback_urlPersist_present_eq [DecidableEq T] (marshal : T → String)
    (name : String) (v : T) (w : World T) (p : String)
    (hg : getParam w.dom.search name = some p) (he : marshal v = p) :
    runCallback marshal (Callback.urlPersist name) v w = w := by
  simp only [runCallback, hg]
  simp only [compareAndSetURLArgument, he]
  rw [if_neg (by intro hne; exact hne rfl)]

theorem runCallback_urlPersist_absent_eq [DecidableEq T] (marshal : T → String)
    (name : String) (v : T) (w : World T)
    (hg : getParam w.dom.search name = none)
    (he : w.state.lastValue = w.state.defaultValue) :
    runCallback marshal (Callback.urlPersist name) v w = w := by
  simp only [runCallback, hg]
  rw [if_neg (by intro hne; exact hne he)]

/-- A concrete world for the C8 counterexample: the container was already
moved away from its default (`lastValue "b"`, `defaultValue "a"`), and the
URL carries no `n` parameter. -/
def wDemoUrl : World String :=
  { dom := { activeElement := none, pathname := "/p", search := [], history := [] },
    state := { lastValue := "b", defaultValue := "a", listeners := [] },
    trace := [] }

/-- C8: counterexample — the claim says the helper performs no URL write
during construction, but registering the sync callback triggers its eager
`addListener` invocation, which (parameter absent, current value ≠ default)
immediately writes `?n=b` and issues a `history.replaceState`. -/
theorem persist_construction_no_write_cex :
    getParam wDemoUrl.dom.search "n" = none
    ∧ wDemoUrl.dom.history = []
    ∧ (persistStateToURLArgument (fun s => s) (fun s => s) "x" "n" wDemoUrl).2.dom.history
      = [HistoryOp.replaceState "/p?n=b"]
    ∧ (persistStateToURLArgument (fun s => s) (fun s => s) "x" "n" wDemoUrl).2.dom.search
      = [("n", "b")] :=
  ⟨rfl, rfl, rfl, rfl⟩

/-- C8 (amended): at construction `persistStateToURLArgument` reads the named
parameter from the current URL; if it is present and differs from the
marshaled default it immediately applies the unmarshaled value via
`setValue`, and if it is absent or equals the marshaled default the
container's value is unchanged.  Provided the container's value equals its
default at the time of the call, marshaling round-trips the parameter string
when present, and no already-registered listener writes to the DOM, the
helper performs no URL write during construction (DOM unchanged). -/
theorem persist_construction_behavior [DecidableEq T] (marshal : T → String)
    (unmarshal : String → T) (idv argumentName : String) (w : World T)
    (hDefault : w.state.lastValue = w.state.defaultValue)
    (hRound : ∀ p, getParam w.dom.search argumentName = some p → marshal (unmarshal p) = p)
    (hNoDom : ∀ q ∈ w.state.listeners, touchesDom q.2 = false) :
    ((persistStateToURLArgument marshal unmarshal idv argumentName w).2.dom = w.dom)
    ∧ (∀ p, getParam w.dom.search argumentName = some p →
        p ≠ marshal w.state.defaultValue →
        (persistStateToURLArgument marshal unmarshal idv argumentName w).2.state.lastValue
          = unmarshal p)
    ∧ (getParam w.dom.search argumentName = none →
        (persistStateToURLArgument marshal unmarshal idv argumentName w).2.state.lastValue
          = w.state.lastValue)
    ∧ (∀ p, getParam w.dom.search argumentName = some p →
        p = marshal w.state.defaultValue →
        (persistStateToURLArgument marshal unmarshal idv argumentName w).2.state.lastValue
          = w.state.lastValue)
    ∧ (persistStateToURLArgument marshal unmarshal idv argumentName w).1
        = { id := idv, cb := Callback.urlPersist argumentName } := by
  cases hg : getParam w.dom.search argumentName with
  | none =>
    have hw2 : persistStateToURLArgument marshal unmarshal idv argumentName w
        = ({ id := idv, cb := Callback.urlPersist argumentName },
           addListener marshal { id := idv, cb := Callback.urlPersist argumentName } w) := by
      simp only [persistStateToURLArgument, hg]
    have hadd : addListener marshal { id := idv, cb := Callback.urlPersist argumentName } w
        = { w with state := { w.state with listeners := addListenerRaw w.state.listeners idv (Callback.urlPersist argumentName) } } := by
      simp only [addListener]
      exact runCallback_urlPersist_absent_eq marshal argumentName _ _ hg hDefault
    refine ⟨?_, ?_, ?_, ?_, ?_⟩
    · rw [hw2, hadd]
    · intro p hp
      exact Option.noConfusion hp
    · intro _
      rw [hw2, hadd]
    · intro p hp
      exact Option.noConfusion hp
    · rw [hw2]
  | some p0 =>
    by_cases hq : p0 = marshal w.state.defaultValue
    · have hw2 : persistStateToURLArgument marshal unmarshal idv argumentName w
          = ({ id := idv, cb := Callback.urlPersist argumentName },
             addListener marshal { id := idv, cb := Callback.urlPersist argumentName } w) := by
        simp only [persistStateToURLArgument, hg, hq]
        rw [if_neg (by intro hne; exact hne rfl)]
      have hadd : addListener marshal { id := idv, cb := Callback.urlPersist argumentName } w
          = { w with state := { w.state with listeners := addListenerRaw w.state.listeners idv (Callback.urlPersist argumentName) } } := by
        simp only [addListener]
        exact runCallback_urlPersist_present_eq marshal argumentName _ _ p0 hg
          (by rw [hDefault, ← hq])
      refine ⟨?_, ?_, ?_, ?_, ?_⟩
      · rw [hw2, hadd]
      · intro p hp hne
        cases hp
        exact absurd hq hne
      · intro hcon
        exact Option.noConfusion hcon
      · intro p hp _
        rw [hw2, hadd]
      · rw [hw2]
    · have hw1 : persistStateToURLArgument marshal unmarshal idv argumentName w
          = ({ id := idv, cb := Callback.urlPersist argumentName },
             addListener marshal { id := idv, cb := Callback.urlPersist argumentName }
               (setValue marshal (unmarshal p0) w)) := by
        simp only [persistStateToURLArgument, hg]
        rw [if_pos hq]
      have hdom1 : (setValue marshal (unmarshal p0) w).dom = w.dom :=
        setValue_dom marshal (unmarshal p0) w hNoDom
      have hst1 : (setValue marshal (unmarshal p0) w).state
          = { w.state with lastValue := unmarshal p0 } :=
        setValue_state marshal (unmarshal p0) w
      have hadd : addListener marshal { id := idv, cb := Callback.urlPersist argumentName }
            (setValue marshal (unmarshal p0) w)
          = { (setValue marshal (unmarshal p0) w) with state := { (setValue marshal (unmarshal p0) w).state with listeners := addListenerRaw (setValue marshal (unmarshal p0) w).state.listeners idv (Callback.urlPersist argumentName) } } := by
        simp only [addListener]
        apply runCallback_urlPersist_present_eq marshal argumentName _ _ p0
        · show getParam (setValue marshal (unmarshal p0) w).dom.search argumentName = some p0
          rw [hdom1]
          exact hg
        · show marshal (setValue marshal (unmarshal p0) w).state.lastValue = p0
          rw [hst1]
          exact hRound p0 hg
      refine ⟨?_, ?_, ?_, ?_, ?_⟩
      · rw [hw1, hadd]
        show (setValue marshal (unmarshal p0) w).dom = w.dom
        exact hdom1
      · intro p hp _
        cases hp
        rw [hw1, hadd]
        show (setValue marshal (unmarshal p0) w).state.lastValue = unmarshal p0
        rw [hst1]
      · intro hcon
        exact Option.noConfusion hcon
      · intro p hp hpq
        cases hp
        exact absurd hpq hq
      · rw [hw1]

/-- A concrete world for the C8 witness: container at its default `"a"`, URL
parameter `n=c` present and differing from the marshaled default. -/
def wDemoUrl2 : World String :=
  { dom := { activeElement := none, pathname := "/p", search := [("n", "c")], history := [] },
    state := { lastValue := "a", defaultValue := "a", listeners := [] },
    trace := [] }

/-- Closed witness for the amended C8 theorem: construction applies `"c"`
into the container and leaves the DOM (URL and history) untouched. -/
theorem persist_construction_behavior_witness :
    ((persistStateToURLArgument (fun s => s) (fun s => s) "x" "n" wDemoUrl2).2.dom
      = wDemoUrl2.dom)
    ∧ (persistStateToURLArgument (fun s => s) (fun s => s) "x" "n" wDemoUrl2).2.state.lastValue
      = "c" :=
  let h := persist_construction_behavior (fun s => s) (fun s => s) "x" "n" wDemoUrl2
    rfl (fun p _ => rfl) (by intro q hq; cases hq)
  ⟨h.1, h.2.1 "c" rfl (by decide)⟩

/-- C9: behavior of the URL-sync callback on a container update (the
hypothesis `w.state.lastValue = v` is exactly the situation in which
`setValue`, or the eager `addListener` delivery, invokes it): it re-reads the
live URL's parameters; when the parameter is present it rewrites it only if
its current string value differs from the newly marshaled value; when absent
it writes it only if the new value differs from the container's default; and
every write goes through `history.replaceState` (never `pushState`),
replacing the history entry in place with the URL rebuilt from the parameter
mapping. -/
theorem urlPersist_update_behavior [DecidableEq T] (marshal : T → String)
    (argumentName : String) (v : T) (w : World T)
    (hLast : w.state.lastValue = v) :
    (∀ p, getParam w.dom.search argumentName = some p → p ≠ marshal v →
       ((runCallback marshal (Callback.urlPersist argumentName) v w).dom.search
          = setParam w.dom.search argumentName (marshal v)
        ∧ getParam (runCallback marshal (Callback.urlPersist argumentName) v w).dom.search
            argumentName = some (marshal v)
        ∧ (runCallback marshal (Callback.urlPersist argumentName) v w).dom.history
          = w.dom.history ++ [HistoryOp.replaceState (w.dom.pathname ++ "?"
              ++ paramsToString (setParam w.dom.search argumentName (marshal v)))]))
    ∧ (∀ p, getParam w.dom.search argumentName = some p → p = marshal v →
        runCallback marshal (Callback.urlPersist argumentName) v w = w)
    ∧ (getParam w.dom.search argumentName = none → v ≠ w.state.defaultValue →
       ((runCallback marshal (Callback.urlPersist argumentName) v w).dom.search
          = setParam w.dom.search argumentName (marshal v)
        ∧ getParam (runCallback marshal (Callback.urlPersist argumentName) v w).dom.search
            argumentName = some (marshal v)
        ∧ (runCallback marshal (Callback.urlPersist argumentName) v w).dom.history
          = w.dom.history ++ [HistoryOp.replaceState (w.dom.pathname ++ "?"
              ++ paramsToString (setParam w.dom.search argumentName (marshal v)))]))
    ∧ (getParam w.dom.search argumentName = none → v = w.state.defaultValue →
        runCallback marshal (Callback.urlPersist argumentName) v w = w)
    ∧ ∀ op ∈ (runCallback marshal (Callback.urlPersist argumentName) v w).dom.history,
        op ∈ w.dom.history ∨ ∃ u, op = HistoryOp.replaceState u := by
  refine ⟨?_, ?_, ?_, ?_, ?_⟩
  · intro p hg hne
    simp only [runCallback, hg, compareAndSetURLArgument, if_pos hne, setURLArgument]
    refine ⟨by trivial, ?_, by trivial⟩
    exact getParam_setParam w.dom.search argumentName (marshal v)
  · intro p hg he
    exact runCallback_urlPersist_present_eq marshal argumentName v w p hg he.symm
  · intro hg hne
    simp only [runCallback, hg, hLast, if_pos hne, setURLArgument]
    refine ⟨by trivial, ?_, by trivial⟩
    exact getParam_setParam w.dom.search argumentName (marshal v)
  · intro hg he
    exact runCallback_urlPersist_absent_eq marshal argumentName v w hg (by rw [hLast, he])
  · cases hg : getParam w.dom.search argumentName with
    | some p =>
      intro op hop
      simp only [runCallback, hg, compareAndSetURLArgument] at hop
      by_cases hpe : p ≠ marshal v
      · rw [if_pos hpe] at hop
        simp only [setURLArgument, List.mem_append, List.mem_singleton] at hop
        rcases hop with h | h
        · exact Or.inl h
        · exact Or.inr ⟨_, h⟩
      · rw [if_neg hpe] at hop
        exact Or.inl hop
    | none =>
      intro op hop
      simp only [runCallback, hg] at hop
      by_cases hne2 : w.state.lastValue ≠ w.state.defaultValue
      · rw [if_pos hne2] at hop
        simp only [setURLArgument, List.mem_append, List.mem_singleton] at hop
        rcases hop with h | h
        · exact Or.inl h
        · exact Or.inr ⟨_, h⟩
      · rw [if_neg hne2] at hop
        exact Or.inl hop

/-- A concrete world for the C9 witness: URL carries `n=old`, container
updated to `"z"`. -/
def wDemoUpd : World String :=
  { dom := { activeElement := none, pathname := "/p", search := [("n", "old")], history := [] },
    state := { lastValue := "z", defaultValue := "a", listeners := [] },
    trace := [] }

/-- Closed witness for C9: the update to `"z"` rewrites `n` to `z` and
appends exactly one `replaceState` of the rebuilt URL. -/
theorem urlPersist_update_behavior_witness :
    ((runCallback (fun s => s) (Callback.urlPersist "n") "z" wDemoUpd).dom.search
      = [("n", "z")])
    ∧ getParam (runCallback (fun s => s) (Callback.urlPersist "n") "z" wDemoUpd).dom.search "n"
      = some "z"
    ∧ (runCallback (fun s => s) (Callback.urlPersist "n") "z" wDemoUpd).dom.history
      = [HistoryOp.replaceState "/p?n=z"] :=
  (urlPersist_update_behavior (fun s => s) "n" "z" wDemoUpd rfl).1 "old" rfl (by decide)

theorem find_map_replace [DecidableEq T] (l : List (String × Callback T))
    (idv : String) (cb : Callback T) (h : l.any (fun p => p.1 = idv) = true) :
    (l.map (fun p => if p.1 = idv then (idv, cb) else p)).find? (fun p => p.1 = idv)
      = some (idv, cb) := by
  induction l with
  | nil => simp at h
  | cons q rest ih =>
    by_cases hq : q.1 = idv
    · simp [hq]
    · simp only [List.any_cons, decide_eq_false hq, Bool.false_or] at h
      simp only [List.map_cons, if_neg hq, List.find?_cons, decide_eq_false hq]
      exact ih h

theorem map_fst_map_replace [DecidableEq T] (l : List (String × Callback T))
    (idv : String) (cb : Callback T) :
    (l.map (fun p => if p.1 = idv then (idv, cb) else p)).map Prod.fst = l.map Prod.fst := by
  induction l with
  | nil => rfl
  | cons q rest ih =>
    by_cases hq : q.1 = idv
    · simp [hq, ih]
    · simp [hq, ih]

theorem objGet_addListenerRaw_present [DecidableEq T] (l : List (String × Callback T))
    (idv : String) (cb : Callback T) (h : l.any (fun p => p.1 = idv) = true) :
    objGet (addListenerRaw l idv cb) idv = some cb := by
  simp only [addListenerRaw, if_pos h, objGet]
  rw [find_map_replace l idv cb h]
  rfl

/-- C10: calling `addListener` with a subscription whose id is already
registered silently replaces the prior registration (the model is a total
function, so no error can be raised): the id now maps to the new callback,
the key set of the mapping is unchanged, the new callback is eagerly invoked
once with the current value, and the prior subscription's callback receives
no notification from any subsequent sequence of `setValue` calls — any trace
entry carrying its label predates the replacement. -/
theorem addListener_duplicate_id_replaces [DecidableEq T] (marshal : T → String)
    (w : World T) (idv : String) (cb₁ : Callback T) (L₁ L₂ : Nat)
    (hMem : (idv, cb₁) ∈ w.state.listeners)
    (hOthers : ∀ p ∈ w.state.listeners, p.1 ≠ idv → emitsLabel p.2 L₁ = false)
    (hNe : L₂ ≠ L₁) :
    (objGet (addListener marshal { id := idv, cb := Callback.user L₂ } w).state.listeners idv
        = some (Callback.user L₂))
    ∧ ((addListener marshal { id := idv, cb := Callback.user L₂ } w).state.listeners.map
          Prod.fst = w.state.listeners.map Prod.fst)
    ∧ ((addListener marshal { id := idv, cb := Callback.user L₂ } w).trace
        = w.trace ++ [(L₂, w.state.lastValue)])
    ∧ ∀ (vs : List T), ∀ e ∈ (runSetValues marshal vs
          (addListener marshal { id := idv, cb := Callback.user L₂ } w)).trace,
        e.1 = L₁ → e ∈ w.trace := by
  have hany : w.state.listeners.any (fun p => p.1 = idv) = true :=
    List.any_eq_true.mpr ⟨(idv, cb₁), hMem, by simp⟩
  have hw : addListener marshal { id := idv, cb := Callback.user L₂ } w
      = { w with
          state := { w.state with listeners := addListenerRaw w.state.listeners idv (Callback.user L₂) },
          trace := w.trace ++ [(L₂, w.state.lastValue)] } := by
    simp [addListener, runCallback]
  refine ⟨?_, ?_, ?_, ?_⟩
  · rw [hw]
    exact objGet_addListenerRaw_present w.state.listeners idv (Callback.user L₂) hany
  · rw [hw]
    show (addListenerRaw w.state.listeners idv (Callback.user L₂)).map Prod.fst
      = w.state.listeners.map Prod.fst
    rw [addListenerRaw, if_pos hany]
    exact map_fst_map_replace w.state.listeners idv (Callback.user L₂)
  · rw [hw]
  · intro vs e he heL
    have hnoemit : ∀ p ∈ (addListener marshal { id := idv, cb := Callback.user L₂ } w).state.listeners,
        emitsLabel p.2 L₁ = false := by
      rw [hw]
      show ∀ p ∈ addListenerRaw w.state.listeners idv (Callback.user L₂), emitsLabel p.2 L₁ = false
      rw [addListenerRaw, if_pos hany]
      intro p hp
      obtain ⟨q, hq, hqe⟩ := List.mem_map.mp hp
      by_cases hqi : q.1 = idv
      · rw [if_pos hqi] at hqe
        rw [← hqe]
        simp only [emitsLabel]
        exact beq_eq_false_iff_ne.mpr hNe
      · rw [if_neg hqi] at hqe
        rw [← hqe]
        exact hOthers q hq hqi
    have hstep := runSetValues_no_emit marshal L₁ vs
      (addListener marshal { id := idv, cb := Callback.user L₂ } w) hnoemit e he heL
    rw [hw] at hstep
    simp only [List.mem_append, List.mem_singleton] at hstep
    rcases hstep with h | h
    · exact h
    · rw [h] at heL
      exact absurd heL hNe

/-- A concrete world for the C10 witness: id "a" registered with user
callback 1, container value 4. -/
def wDemoDup : World Nat :=
  { dom := { activeElement := none, pathname := "", search := [], history := [] },
    state := { lastValue := 4, defaultValue := 0, listeners := [("a", Callback.user 1)] },
    trace := [] }

/-- Closed witness for C10: re-registering id "a" with user callback 2
replaces the mapping entry, keeps the key set, and eagerly delivers `(2, 4)`. -/
theorem addListener_duplicate_id_replaces_witness :
    (objGet (addListener (fun n => toString n) { id := "a", cb := Callback.user 2 }
        wDemoDup).state.listeners "a" = some (Callback.user 2))
    ∧ ((addListener (fun n => toString n) { id := "a", cb := Callback.user 2 }
        wDemoDup).state.listeners.map Prod.fst = wDemoDup.state.listeners.map Prod.fst)
    ∧ ((addListener (fun n => toString n) { id := "a", cb := Callback.user 2 }
        wDemoDup).trace = wDemoDup.trace ++ [(2, wDemoDup.state.lastValue)]) :=
  let h := addListener_duplicate_id_replaces (fun n => toString n) wDemoDup "a"
    (Callback.user 1) 1 2 (by simp [wDemoDup]) (by decide) (by decide)
  ⟨h.1, h.2.1, h.2.2.1⟩

end StateTs
